import Mathlib

/-!
Verification of the `http_io` crate's `io` and `server` modules.

The `io` module (src/io.rs) is embedded as state-machine readers and
writers: a reader over state `σ` is a function taking a state and a
buffer length and returning either an error or the bytes read together
with the successor state; a write-all sink over state `ω` takes the
bytes to write and returns an error or the successor state.  Bytes are
`Nat` (values of Rust `u8`; no arithmetic overflows them here).

The `server` module (src/server.rs) is embedded with the protocol-layer
types it uses (`HttpMethod`, `HttpStatus`, `HttpResponse`, `HttpBody`,
`error::Error`), whose defining module is not part of the sources at
hand and is therefore modelled from the specification where marked.
-/

namespace HttpIoSpec

/-- Bytes are modelled as natural numbers (Rust `u8` values). -/
abbrev Byte := Nat

/-- Model of `core2::io::Error` as far as this development needs it:
`UnexpectedEof` (constructed by `<&[u8] as Read>::read_exact`) and a
catch-all for the remaining variants. -/
inductive IOError where
  | unexpectedEof (msg : String)
  | otherErr (msg : String)
deriving DecidableEq, Repr

/-- A reader over states `σ`: `read s n` models `Read::read` called on
state `s` with a buffer of length `n`; it yields the bytes placed in
the buffer and the successor state, or an error. -/
abbrev ReadFn (E σ : Type) := σ → Nat → Except E (List Byte × σ)

/-- A write-all sink over states `ω`: models `Write::write_all`
("write all given bytes or fail"). -/
abbrev WriteAllFn (E ω : Type) := ω → List Byte → Except E ω

/-- The `Read` contract: a read never reports more bytes than the
buffer it was given can hold. -/
def WellBehaved {E σ : Type} (read : ReadFn E σ) : Prop :=
  ∀ s n bs s', read s n = .ok (bs, s') → bs.length ≤ n

/-- Run a sequence of reads (one buffer length per element), collecting
the chunks returned; stops at the first error, like `?` would. -/
def runReads {E σ : Type} (read : ReadFn E σ) : σ → List Nat → Except E (List (List Byte) × σ)
  | s, [] => .ok ([], s)
  | s, n :: ns =>
    match read s n with
    | .error e => .error e
    | .ok (bs, s') =>
      match runReads read s' ns with
      | .error e => .error e
      | .ok (bss, s'') => .ok (bs :: bss, s'')

/-- State of `io::Take<T>` (src/io.rs lines 113-116): the wrapped inner
reader state and the remaining byte limit (`limit: u64`). -/
structure Take (σ : Type) where
  inner : σ
  limit : Nat
deriving DecidableEq, Repr

/-- Embeds `impl<T: Read> Read for Take<T>` (src/io.rs lines 128-139):
if the limit is zero, return 0 bytes without calling the inner reader;
otherwise read into the first `min (buffer length) limit` bytes of the
buffer and decrease the limit by the count actually read. -/
def Take.read {E σ : Type} (read : ReadFn E σ) (t : Take σ) (bufLen : Nat) :
    Except E (List Byte × Take σ) :=
  if t.limit = 0 then .ok ([], t)
  else
    match read t.inner (min bufLen t.limit) with
    | .error e => .error e
    | .ok (bs, s') => .ok (bs, { inner := s', limit := t.limit - bs.length })

/-- Embeds `impl Read for &[u8]::read` (src/io.rs lines 197-209): copy
`min (buffer length) (slice length)` bytes out and advance the slice. -/
def sliceRead (s : List Byte) (bufLen : Nat) : List Byte × List Byte :=
  (s.take (min bufLen s.length), s.drop (min bufLen s.length))

/-- The slice reader as a `ReadFn` (it never fails). -/
def sliceReadFn : ReadFn IOError (List Byte) :=
  fun s n => .ok (sliceRead s n)

/-- Embeds `<&[u8] as Read>::read_exact` (src/io.rs lines 211-225).
The pair returned is (result carrying the filled buffer, the slice
after the call); on error `*self` is not reassigned, so the slice is
returned unchanged. -/
def sliceReadExact (s : List Byte) (bufLen : Nat) :
    Except IOError (List Byte) × List Byte :=
  if bufLen > s.length then
    (.error (.unexpectedEof "failed to fill whole buffer"), s)
  else
    (.ok (s.take bufLen), s.drop bufLen)

/-- State of `io::BufReader<T>` (src/io.rs lines 65-67): just the inner
stream (this `BufReader` keeps no buffer). -/
structure BufReader (σ : Type) where
  inner : σ
deriving DecidableEq, Repr

/-- Embeds `BufReader::new` (src/io.rs line 70). -/
def BufReader.new {σ : Type} (inner : σ) : BufReader σ := ⟨inner⟩

/-- Embeds `BufReader::into_inner` (src/io.rs line 74). -/
def BufReader.into_inner {σ : Type} (b : BufReader σ) : σ := b.inner

/-- Embeds `impl<T: Read> Read for BufReader<T>` (src/io.rs lines
79-83): delegates to the inner reader. -/
def BufReader.read {E σ : Type} (read : ReadFn E σ) (b : BufReader σ) (bufLen : Nat) :
    Except E (List Byte × BufReader σ) :=
  match read b.inner bufLen with
  | .error e => .error e
  | .ok (bs, s') => .ok (bs, ⟨s'⟩)

/-- A writer over states `ω`: `write` models `Write::write` (returning
the count accepted) and `flush` models `Write::flush`. -/
structure Writer (E ω : Type) where
  write : ω → List Byte → Except E (Nat × ω)
  flush : ω → Except E ω

/-- State of `io::BufWriter<T>` (src/io.rs lines 41-43): just the inner
stream (this `BufWriter` keeps no buffer). -/
structure BufWriter (ω : Type) where
  inner : ω
deriving DecidableEq, Repr

/-- Embeds `BufWriter::new` (src/io.rs line 46). -/
def BufWriter.new {ω : Type} (inner : ω) : BufWriter ω := ⟨inner⟩

/-- Embeds `BufWriter::into_inner` (src/io.rs lines 50-52): returns
`Ok(inner)`. -/
def BufWriter.into_inner {E ω : Type} (b : BufWriter ω) : Except E ω := .ok b.inner

/-- Embeds `impl<T: Write> Write for BufWriter<T>::write` (src/io.rs
lines 56-58): delegates to the inner writer. -/
def BufWriter.write {E ω : Type} (wr : Writer E ω) (b : BufWriter ω) (bs : List Byte) :
    Except E (Nat × BufWriter ω) :=
  match wr.write b.inner bs with
  | .error e => .error e
  | .ok (n, w') => .ok (n, ⟨w'⟩)

/-- Embeds `impl<T: Write> Write for BufWriter<T>::flush` (src/io.rs
lines 60-62): delegates to the inner writer. -/
def BufWriter.flush {E ω : Type} (wr : Writer E ω) (b : BufWriter ω) :
    Except E (BufWriter ω) :=
  match wr.flush b.inner with
  | .error e => .error e
  | .ok w' => .ok ⟨w'⟩

/-- One operation of a write/flush call sequence. -/
inductive WriterOp where
  | writeOp (bs : List Byte)
  | flushOp
deriving DecidableEq, Repr

/-- Run a sequence of write/flush calls against a writer, collecting
each write's returned count; stops at the first error. -/
def runWrites {E ω : Type} (wr : Writer E ω) : ω → List WriterOp → Except E (List Nat × ω)
  | w, [] => .ok ([], w)
  | w, .writeOp bs :: ops =>
    match wr.write w bs with
    | .error e => .error e
    | .ok (n, w') =>
      match runWrites wr w' ops with
      | .error e => .error e
      | .ok (ns, w'') => .ok (n :: ns, w'')
  | w, .flushOp :: ops =>
    match wr.flush w with
    | .error e => .error e
    | .ok w' => runWrites wr w' ops

/-- The `BufWriter` wrapper of a writer, as a writer over `BufWriter ω`
states. -/
def BufWriter.asWriter {E ω : Type} (wr : Writer E ω) : Writer E (BufWriter ω) where
  write := fun b bs => BufWriter.write wr b bs
  flush := fun b => BufWriter.flush wr b

/-- Embeds `DEFAULT_BUF_SIZE` (src/io.rs line 85). -/
def DEFAULT_BUF_SIZE : Nat := 8 * 1024

/-- Embeds `io::copy` (src/io.rs lines 87-103), with explicit fuel for
the unbounded `loop`: read into an 8192-byte buffer; a 0-byte read
returns `Ok(written)`; otherwise write all bytes read and continue.
`none` means the loop did not finish within `fuel` iterations. -/
def copyFuel {E σ ω : Type} (read : ReadFn E σ) (writeAll : WriteAllFn E ω) :
    Nat → σ → ω → Nat → Option (Except E (Nat × σ × ω))
  | 0, _, _, _ => none
  | fuel + 1, s, w, written =>
    match read s DEFAULT_BUF_SIZE with
    | .error e => some (.error e)
    | .ok ([], s') => some (.ok (written, s', w))
    | .ok (bs, s') =>
      match writeAll w bs with
      | .error e => some (.error e)
      | .ok w' => copyFuel read writeAll fuel s' w' (written + bs.length)

/-- A trace of the chunks `copy`'s loop obtains from the reader: a
sequence of non-empty reads of the 8192-byte buffer, ended by a 0-byte
read. -/
inductive ReadTrace {E σ : Type} (read : ReadFn E σ) : σ → List (List Byte) → σ → Prop where
  | done : ∀ s s', read s DEFAULT_BUF_SIZE = .ok ([], s') → ReadTrace read s [] s'
  | step : ∀ s bs s₁ cs s', read s DEFAULT_BUF_SIZE = .ok (bs, s₁) → bs ≠ [] →
      ReadTrace read s₁ cs s' → ReadTrace read s (bs :: cs) s'

/-- Deliver a list of chunks to a write-all sink, in order; stops at
the first error. -/
def writeFold {E ω : Type} (writeAll : WriteAllFn E ω) : ω → List (List Byte) → Except E ω
  | w, [] => .ok w
  | w, bs :: rest =>
    match writeAll w bs with
    | .error e => .error e
    | .ok w' => writeFold writeAll w' rest

/-- The accumulating write-all sink: state is the list of all bytes
written so far, and every write succeeds. -/
def accWriteAll : WriteAllFn IOError (List Byte) :=
  fun w bs => .ok (w ++ bs)

/-- Modelled from the spec: the method enumeration of the `protocol`
module, which is not among the sources at hand; the spec fixes the
closed set GET, HEAD, POST, PUT, DELETE, OPTIONS, TRACE, and
src/server.rs matches the variants `Delete`, `Get`, `Head`, `Options`,
`Post`, `Put`, `Trace`. -/
inductive HttpMethod where
  | delete | get | head | options | post | put | trace
deriving DecidableEq, Repr

/-- Modelled from the spec: the status enumeration of the `protocol`
module (not among the sources at hand), restricted to the statuses
src/server.rs uses, paired below with the numeric codes the spec names
(405 Method Not Allowed, 411 Length Required, 500 Internal Server
Error, 200 OK). -/
inductive HttpStatus where
  | OK | MethodNotAllowed | LengthRequired | InternalServerError
deriving DecidableEq, Repr

/-- Modelled from the spec: the numeric code of each status. -/
def HttpStatus.code : HttpStatus → Nat
  | .OK => 200
  | .MethodNotAllowed => 405
  | .LengthRequired => 411
  | .InternalServerError => 500

/-- Modelled from the spec: `error::Error` of the missing `error`
module, as the server boundary distinguishes it: the `LengthRequired`
variant (matched by name in src/server.rs line 85) and all other
error values, carrying their display text (`e.to_string()`). -/
inductive Error where
  | LengthRequired
  | Other (msg : String)
deriving DecidableEq, Repr

/-- Modelled from the spec: `Error::to_string` (the `Display` text). -/
def Error.to_string : Error → String
  | .LengthRequired => "length required"
  | .Other msg => msg

/-- Modelled from the spec: a response `{status, body}`; the
`Box<dyn Read>` body is taken as the text it would yield, which is all
the server claims need of it. -/
structure HttpResponse where
  status : HttpStatus
  body : String
deriving DecidableEq, Repr

/-- Modelled from the spec: `HttpResponse::from_string`, the
convenience constructor from a status and in-memory text. -/
def HttpResponse.from_string (status : HttpStatus) (body : String) : HttpResponse :=
  ⟨status, body⟩

/-- Modelled from the spec: the framing variants of a request body
(responses may also be unbounded-until-close, but a request body is
chunked, fixed-length, or empty when neither framing header is
present). -/
inductive HttpBody where
  | fixed (length : Nat)
  | chunked
  | empty
deriving DecidableEq, Repr

/-- Modelled from the spec: `HttpBody::require_length` of the missing
`protocol` module fails with `Error::LengthRequired` exactly when
neither `Content-Length` nor chunked `Transfer-Encoding` framed the
body, i.e. on the `empty` variant. -/
def HttpBody.require_length : HttpBody → Except Error Unit
  | .fixed _ => .ok ()
  | .chunked => .ok ()
  | .empty => .error .LengthRequired

/-- Modelled from the spec: a parsed request `{method, target URI,
body}` (the header map is already folded into the framed body). -/
structure HttpRequest where
  method : HttpMethod
  uri : String
  body : HttpBody
deriving DecidableEq, Repr

/-- Embeds `impl From<error::Error> for HttpResponse<Box<dyn Read>>`
(src/server.rs lines 82-91): `LengthRequired` becomes a 411 response
with body "length required", every other error a 500 response with the
error's display text. -/
def responseFromError : Error → HttpResponse
  | .LengthRequired => HttpResponse.from_string .LengthRequired "length required"
  | e => HttpResponse.from_string .InternalServerError e.to_string

/-- Embeds the `HttpRequestHandler` trait (src/server.rs lines
134-193) as a record of the seven per-method hooks; `E` is the
handler's associated `Error` type. -/
structure HttpRequestHandler (E : Type) where
  delete : String → Except E HttpResponse
  get : String → Except E HttpResponse
  head : String → Except E HttpResponse
  options : String → Except E HttpResponse
  put : String → HttpBody → Except E HttpResponse
  post : String → HttpBody → Except E HttpResponse
  trace : String → Except E HttpResponse

/-- Embeds the trait's default hook bodies (src/server.rs lines
137-192): each answers `Ok` with a 405 Method Not Allowed response
(the `post` default's text reads "PUT not allowed" in the source). -/
def defaultHandler (E : Type) : HttpRequestHandler E where
  delete := fun _ => .ok (HttpResponse.from_string .MethodNotAllowed "DELETE not allowed")
  get := fun _ => .ok (HttpResponse.from_string .MethodNotAllowed "GET not allowed")
  head := fun _ => .ok (HttpResponse.from_string .MethodNotAllowed "HEAD not allowed")
  options := fun _ => .ok (HttpResponse.from_string .MethodNotAllowed "OPTIONS not allowed")
  put := fun _ _ => .ok (HttpResponse.from_string .MethodNotAllowed "PUT not allowed")
  post := fun _ _ => .ok (HttpResponse.from_string .MethodNotAllowed "PUT not allowed")
  trace := fun _ => .ok (HttpResponse.from_string .MethodNotAllowed "TRACE not allowed")

/-- Which hook a dispatch invoked, for the instrumentation trace. -/
inductive Hook where
  | delete | get | head | options | post | put | trace
deriving DecidableEq, Repr

/-- Embeds `type HttpResult<T>` (src/server.rs line 80): the error
side already carries a response. -/
abbrev HttpResult := Except HttpResponse HttpResponse

/-- Embeds `HttpServer::serve_one_inner` (src/server.rs lines
224-246).  `parseResult` is the outcome of
`HttpRequest::deserialize(BufReader::new(stream))`, whose error is
converted by `?` through `From<error::Error>`; the parsed request is
dispatched on its method, `require_length` guarding the `Post` and
`Put` arms, and a handler error is converted by
`.map_err(|e| e.into())`.  Alongside the result, the list of handler
hooks invoked is returned as an instrumentation trace (each arm calls
exactly one hook; the guard's error arm calls none). -/
def serve_one_inner {E : Type} (parseResult : Except Error HttpRequest)
    (handler : HttpRequestHandler E) (into : E → HttpResponse) :
    HttpResult × List Hook :=
  match parseResult with
  | .error e => (.error (responseFromError e), [])
  | .ok request =>
    match request.method with
    | .delete => ((handler.delete request.uri).mapError into, [.delete])
    | .get => ((handler.get request.uri).mapError into, [.get])
    | .head => ((handler.head request.uri).mapError into, [.head])
    | .options => ((handler.options request.uri).mapError into, [.options])
    | .post =>
      match request.body.require_length with
      | .error e => (.error (responseFromError e), [])
      | .ok _ => ((handler.post request.uri request.body).mapError into, [.post])
    | .put =>
      match request.body.require_length with
      | .error e => (.error (responseFromError e), [])
      | .ok _ => ((handler.put request.uri request.body).mapError into, [.put])
    | .trace => ((handler.trace request.uri).mapError into, [.trace])

/-- Embeds the `match` in `serve_one` (src/server.rs lines 212-215):
the response to write is the payload of either side of the
`HttpResult`. -/
def HttpResult.response : HttpResult → HttpResponse
  | .ok r => r
  | .error r => r

/-- Embeds `HttpServer::serve_one` (src/server.rs lines 210-221) from
the accepted stream on: the inner result's response (`Ok` or `Err`
alike) is serialized onto the stream, then its body is copied onto the
stream; each of the two writes yields the stream's successor state and
optionally the error it failed with, which `?` propagates
immediately. -/
def serve_one {E σ : Type}
    (serialize : HttpResponse → σ → σ × Option Error)
    (copyBody : String → σ → σ × Option Error)
    (parseResult : Except Error HttpRequest)
    (handler : HttpRequestHandler E) (into : E → HttpResponse)
    (stream : σ) : σ × Option Error :=
  let response := (serve_one_inner parseResult handler into).1.response
  match serialize response stream with
  | (s1, some e) => (s1, some e)
  | (s1, none) =>
    match copyBody response.body s1 with
    | (s2, some e) => (s2, some e)
    | (s2, none) => (s2, none)

/-- An observable write on the accepted stream: a serialized response
head (status line and headers) or a copied response body. -/
inductive WriteEvent where
  | responseWritten (r : HttpResponse)
  | bodyCopied (b : String)
deriving DecidableEq, Repr

/-- The recording stream: serializing a response appends one
`responseWritten` event and succeeds. -/
def recordSerialize (r : HttpResponse) (s : List WriteEvent) :
    List WriteEvent × Option Error :=
  (s ++ [.responseWritten r], none)

/-- The recording stream: copying a body appends one `bodyCopied`
event and succeeds. -/
def recordCopy (b : String) (s : List WriteEvent) :
    List WriteEvent × Option Error :=
  (s ++ [.bodyCopied b], none)

/-- Count of serialized responses among a stream's write events. -/
def countResponses (events : List WriteEvent) : Nat :=
  (events.filter fun e => match e with
    | .responseWritten _ => true
    | .bodyCopied _ => false).length

/-- State of the `serve_forever` loop (src/server.rs lines 252-258):
how many `serve_one` cycles have completed and the errors logged so
far (the `println!` on an `Err` outcome). -/
structure LoopState where
  cycles : Nat
  log : List Error
deriving DecidableEq, Repr

/-- Embeds one iteration of `serve_forever`'s `loop`: run `serve_one`;
if it returned `Err(e)`, log `e`; either way continue with the next
cycle. -/
def serve_forever_step (outcome : Except Error Unit) (s : LoopState) : LoopState :=
  match outcome with
  | .error e => { cycles := s.cycles + 1, log := s.log ++ [e] }
  | .ok _ => { cycles := s.cycles + 1, log := s.log }

/-- The `serve_forever` loop after `n` iterations, the outcome of the
`i`-th `serve_one` call given by `outcomes i`. -/
def serve_forever_run (outcomes : Nat → Except Error Unit) : Nat → LoopState
  | 0 => { cycles := 0, log := [] }
  | n + 1 => serve_forever_step (outcomes n) (serve_forever_run outcomes n)

/-- The errors among the first `n` outcomes, in order. -/
def errorsIn (outcomes : Nat → Except Error Unit) : Nat → List Error
  | 0 => []
  | n + 1 =>
    errorsIn outcomes n ++
      (match outcomes n with
       | .error e => [e]
       | .ok _ => [])

/-- The slice reader obeys the `Read` contract: it never returns more
bytes than the buffer length requested. -/
theorem sliceReadFn_wellBehaved : WellBehaved sliceReadFn := by
  intro s n bs s' h
  simp only [sliceReadFn, sliceRead, Except.ok.injEq, Prod.mk.injEq] at h
  obtain ⟨hbs, _⟩ := h
  subst hbs
  simp only [List.length_take]
  omega

/-- C4: every handler hook not overridden by the application (delete,
get, head, options, put, post, trace) answers `Ok` with a response
whose status is 405 Method Not Allowed. -/
theorem default_hooks_method_not_allowed (E : Type) (uri : String) (body : HttpBody) :
    (∃ r, (defaultHandler E).delete uri = .ok r ∧
      r.status = .MethodNotAllowed ∧ r.status.code = 405) ∧
    (∃ r, (defaultHandler E).get uri = .ok r ∧
      r.status = .MethodNotAllowed ∧ r.status.code = 405) ∧
    (∃ r, (defaultHandler E).head uri = .ok r ∧
      r.status = .MethodNotAllowed ∧ r.status.code = 405) ∧
    (∃ r, (defaultHandler E).options uri = .ok r ∧
      r.status = .MethodNotAllowed ∧ r.status.code = 405) ∧
    (∃ r, (defaultHandler E).put uri body = .ok r ∧
      r.status = .MethodNotAllowed ∧ r.status.code = 405) ∧
    (∃ r, (defaultHandler E).post uri body = .ok r ∧
      r.status = .MethodNotAllowed ∧ r.status.code = 405) ∧
    (∃ r, (defaultHandler E).trace uri = .ok r ∧
      r.status = .MethodNotAllowed ∧ r.status.code = 405) := by
  refine ⟨⟨_, rfl, rfl, rfl⟩, ⟨_, rfl, rfl, rfl⟩, ⟨_, rfl, rfl, rfl⟩, ⟨_, rfl, rfl, rfl⟩,
    ⟨_, rfl, rfl, rfl⟩, ⟨_, rfl, rfl, rfl⟩, ⟨_, rfl, rfl, rfl⟩⟩

/-- C1: on a parsed POST or PUT request, `serve_one_inner` consults
`require_length` on the body; when it fails with `LengthRequired`, the
exchange results in the `From<error::Error>`-converted 411 Length
Required response and the hook-invocation trace is empty: no handler
hook ran. -/
theorem post_put_length_required {E : Type} (handler : HttpRequestHandler E)
    (into : E → HttpResponse) (request : HttpRequest)
    (hm : request.method = .post ∨ request.method = .put)
    (hl : request.body.require_length = .error Error.LengthRequired) :
    serve_one_inner (.ok request) handler into =
      (.error (responseFromError Error.LengthRequired), []) ∧
    (responseFromError Error.LengthRequired).status = .LengthRequired ∧
    (responseFromError Error.LengthRequired).status.code = 411 := by
  refine ⟨?_, rfl, rfl⟩
  rcases hm with hm | hm <;>
    · simp only [serve_one_inner, hm, hl]

/-- Closed instance of `post_put_length_required`: a POST request with
an empty-framed body yields the 411 response and an empty hook
trace. -/
theorem post_put_length_required_witness :
    serve_one_inner (E := Error) (.ok ⟨.post, "/upload", .empty⟩)
      (defaultHandler Error) responseFromError =
      (.error (responseFromError Error.LengthRequired), []) :=
  (post_put_length_required (defaultHandler Error) responseFromError
    ⟨.post, "/upload", .empty⟩ (Or.inl rfl) rfl).1

/-- C7: `serve_one_inner` dispatches each parsed method to exactly the
hook of that name, passing the parsed URI to every hook and the framed
body only to the post and put hooks (which run only once
`require_length` succeeded); the trace records exactly that one
hook. -/
theorem dispatch_spec {E : Type} (handler : HttpRequestHandler E)
    (into : E → HttpResponse) (request : HttpRequest) :
    (request.method = .delete → serve_one_inner (.ok request) handler into =
        ((handler.delete request.uri).mapError into, [.delete])) ∧
    (request.method = .get → serve_one_inner (.ok request) handler into =
        ((handler.get request.uri).mapError into, [.get])) ∧
    (request.method = .head → serve_one_inner (.ok request) handler into =
        ((handler.head request.uri).mapError into, [.head])) ∧
    (request.method = .options → serve_one_inner (.ok request) handler into =
        ((handler.options request.uri).mapError into, [.options])) ∧
    (request.method = .trace → serve_one_inner (.ok request) handler into =
        ((handler.trace request.uri).mapError into, [.trace])) ∧
    (request.method = .post → request.body.require_length = .ok () →
        serve_one_inner (.ok request) handler into =
          ((handler.post request.uri request.body).mapError into, [.post])) ∧
    (request.method = .put → request.body.require_length = .ok () →
        serve_one_inner (.ok request) handler into =
          ((handler.put request.uri request.body).mapError into, [.put])) := by
  refine ⟨fun h => ?_, fun h => ?_, fun h => ?_, fun h => ?_, fun h => ?_,
    fun h hl => ?_, fun h hl => ?_⟩
  case _ => simp only [serve_one_inner, h]
  case _ => simp only [serve_one_inner, h]
  case _ => simp only [serve_one_inner, h]
  case _ => simp only [serve_one_inner, h]
  case _ => simp only [serve_one_inner, h]
  case _ => simp only [serve_one_inner, h, hl]
  case _ => simp only [serve_one_inner, h, hl]

/-- Closed instance of `dispatch_spec`: a GET request goes to the
`get` hook with its URI, and the trace records only that hook. -/
theorem dispatch_spec_witness :
    serve_one_inner (E := Error) (.ok ⟨.get, "/a", .empty⟩)
      (defaultHandler Error) responseFromError =
      (((defaultHandler Error).get "/a").mapError responseFromError, [.get]) :=
  (dispatch_spec (defaultHandler Error) responseFromError ⟨.get, "/a", .empty⟩).2.1 rfl

/-- C2: on the recording stream, `serve_one` writes exactly one
response — the inner result's payload, whether `Ok` or `Err` — and
then its body, for every parse outcome and handler; the
`From<error::Error>` conversion yields status 411 for `LengthRequired`
and status 500 Internal Server Error for every other error value. -/
theorem serve_one_single_response {E : Type} (parseResult : Except Error HttpRequest)
    (handler : HttpRequestHandler E) (into : E → HttpResponse) :
    serve_one recordSerialize recordCopy parseResult handler into [] =
      ([.responseWritten ((serve_one_inner parseResult handler into).1.response),
        .bodyCopied ((serve_one_inner parseResult handler into).1.response.body)], none) ∧
    countResponses
      [.responseWritten ((serve_one_inner parseResult handler into).1.response),
        .bodyCopied ((serve_one_inner parseResult handler into).1.response.body)] = 1 ∧
    responseFromError Error.LengthRequired =
      HttpResponse.from_string .LengthRequired "length required" ∧
    (responseFromError Error.LengthRequired).status.code = 411 ∧
    (∀ msg, responseFromError (.Other msg) =
        HttpResponse.from_string .InternalServerError msg ∧
      (responseFromError (.Other msg)).status.code = 500) := by
  refine ⟨?_, rfl, rfl, rfl, fun msg => ⟨rfl, rfl⟩⟩
  simp only [serve_one, recordSerialize, recordCopy, List.nil_append, List.cons_append]

/-- C6: after the handler's response is chosen, a failing serialize
makes `serve_one` return that error at once with the stream exactly as
serialize left it, whatever the body-copy behaviour would have been
(it is never invoked); a failing body copy after a successful
serialize likewise returns that error at once with the stream exactly
as the copy left it. -/
theorem serve_one_write_failure {E σ : Type}
    (serialize : HttpResponse → σ → σ × Option Error)
    (parseResult : Except Error HttpRequest)
    (handler : HttpRequestHandler E) (into : E → HttpResponse)
    (stream : σ) :
    (∀ (copyBody : String → σ → σ × Option Error) s1 e,
        serialize ((serve_one_inner parseResult handler into).1.response) stream =
          (s1, some e) →
        serve_one serialize copyBody parseResult handler into stream = (s1, some e)) ∧
    (∀ (copyBody : String → σ → σ × Option Error) s1 s2 e,
        serialize ((serve_one_inner parseResult handler into).1.response) stream =
          (s1, none) →
        copyBody ((serve_one_inner parseResult handler into).1.response.body) s1 =
          (s2, some e) →
        serve_one serialize copyBody parseResult handler into stream = (s2, some e)) := by
  constructor
  · intro copyBody s1 e hser
    simp only [serve_one, hser]
  · intro copyBody s1 s2 e hser hcopy
    simp only [serve_one, hser, hcopy]

/-- Closed instance of `serve_one_write_failure`: with a serialize
that fails immediately, `serve_one` returns that error and the
untouched stream. -/
theorem serve_one_write_failure_witness :
    serve_one (fun _ s => (s, some (Error.Other "io"))) recordCopy
      (E := Error) (.error (Error.Other "parse")) (defaultHandler Error)
      responseFromError [] =
      ([], some (Error.Other "io")) :=
  (serve_one_write_failure (fun _ s => (s, some (Error.Other "io")))
    (.error (Error.Other "parse")) (defaultHandler Error) responseFromError []).1
    recordCopy [] (Error.Other "io") rfl

/-- C5: the `serve_forever` loop is total over every sequence of
`serve_one` outcomes — after any number of cycles the next iteration
is again one `serve_forever_step`, every cycle completes (the cycle
counter equals the iteration count, so no outcome terminates or
escapes the loop), and the errors among the outcomes are exactly what
gets logged, in order. -/
theorem serve_forever_spec (outcomes : Nat → Except Error Unit) (n : Nat) :
    serve_forever_run outcomes (n + 1) =
      serve_forever_step (outcomes n) (serve_forever_run outcomes n) ∧
    (serve_forever_run outcomes n).cycles = n ∧
    (serve_forever_run outcomes n).log = errorsIn outcomes n := by
  refine ⟨rfl, ?_, ?_⟩ <;>
  · induction n with
    | zero => rfl
    | succ n ih =>
      simp only [serve_forever_run, serve_forever_step, errorsIn]
      cases outcomes n <;> simp [ih]

/-- C10: `read_exact` on a byte slice fails with `UnexpectedEof`
exactly when the buffer is longer than the remaining slice, in which
case the slice is left unchanged; on success the buffer holds the
first `bufLen` bytes and the slice advances by exactly `bufLen`. -/
theorem slice_read_exact_spec (s : List Byte) (bufLen : Nat) :
    (bufLen > s.length →
      sliceReadExact s bufLen =
        (.error (.unexpectedEof "failed to fill whole buffer"), s)) ∧
    (bufLen ≤ s.length →
      sliceReadExact s bufLen = (.ok (s.take bufLen), s.drop bufLen) ∧
        (s.take bufLen).length = bufLen) ∧
    (∀ e rest, sliceReadExact s bufLen = (.error e, rest) →
      bufLen > s.length ∧ rest = s) := by
  refine ⟨fun h => ?_, fun h => ⟨?_, ?_⟩, fun e rest h => ?_⟩
  · simp [sliceReadExact, h]
  · simp [sliceReadExact, Nat.not_lt.mpr h]
  · simp [List.length_take]; omega
  · by_cases hb : bufLen > s.length
    · simp only [sliceReadExact, if_pos hb, Prod.mk.injEq] at h
      exact ⟨hb, h.2.symm⟩
    · simp [sliceReadExact, hb] at h

/-- Closed instance of `slice_read_exact_spec`: both the failing and
the succeeding call on the slice `[1, 2, 3]`. -/
theorem slice_read_exact_spec_witness :
    sliceReadExact [1, 2, 3] 2 = (.ok [1, 2], [3]) ∧
    sliceReadExact [1, 2, 3] 4 =
      (.error (.unexpectedEof "failed to fill whole buffer"), [1, 2, 3]) :=
  ⟨((slice_read_exact_spec [1, 2, 3] 2).2.1 (by decide)).1,
    (slice_read_exact_spec [1, 2, 3] 4).1 (by decide)⟩

/-- One `Take::read` call of a well-behaved inner reader returns at
most `min (buffer length) limit` bytes and decreases the limit by the
count returned. -/
theorem take_read_step {E σ : Type} (read : ReadFn E σ) (hwb : WellBehaved read)
    (t : Take σ) (bufLen : Nat) (bs : List Byte) (t' : Take σ)
    (h : Take.read read t bufLen = .ok (bs, t')) :
    bs.length ≤ min bufLen t.limit ∧ t'.limit = t.limit - bs.length := by
  unfold Take.read at h
  by_cases h0 : t.limit = 0
  · rw [if_pos h0] at h
    simp only [Except.ok.injEq, Prod.mk.injEq] at h
    obtain ⟨h1, h2⟩ := h
    subst h1; subst h2
    simp [h0]
  · rw [if_neg h0] at h
    cases hr : read t.inner (min bufLen t.limit) with
    | error e => rw [hr] at h; simp at h
    | ok p =>
      obtain ⟨bs0, s'⟩ := p
      rw [hr] at h
      simp only [Except.ok.injEq, Prod.mk.injEq] at h
      obtain ⟨h1, h2⟩ := h
      subst h1
      exact ⟨hwb _ _ _ _ hr, by rw [← h2]⟩

/-- Over any sequence of reads through `Take`, the bytes yielded plus
the remaining limit account exactly for the initial limit. -/
theorem take_runReads_total {E σ : Type} (read : ReadFn E σ) (hwb : WellBehaved read) :
    ∀ (bufLens : List Nat) (t : Take σ) (bss : List (List Byte)) (t' : Take σ),
      runReads (Take.read read) t bufLens = .ok (bss, t') →
      (bss.map List.length).sum + t'.limit = t.limit := by
  intro bufLens
  induction bufLens with
  | nil =>
    intro t bss t' h
    simp only [runReads, Except.ok.injEq, Prod.mk.injEq] at h
    obtain ⟨h1, h2⟩ := h
    subst h1; subst h2
    simp
  | cons n ns ih =>
    intro t bss t' h
    simp only [runReads] at h
    cases hr : Take.read read t n with
    | error e => rw [hr] at h; simp at h
    | ok p =>
      obtain ⟨bs, t₁⟩ := p
      rw [hr] at h
      simp only at h
      cases hrr : runReads (Take.read read) t₁ ns with
      | error e => rw [hrr] at h; simp at h
      | ok q =>
        obtain ⟨bss', t''⟩ := q
        rw [hrr] at h
        simp only [Except.ok.injEq, Prod.mk.injEq] at h
        obtain ⟨h1, h2⟩ := h
        subst h1; subst h2
        obtain ⟨hle, hlim⟩ := take_read_step read hwb t n bs t₁ hr
        have hmin : min n t.limit ≤ t.limit := Nat.min_le_right n t.limit
        have hih := ih t₁ bss' _ hrr
        simp only [List.map_cons, List.sum_cons]
        omega

/-- C3: over a well-behaved inner reader, each `Take` read yields at
most `min (buffer length) (remaining limit)` bytes and decreases the
limit by the count yielded; with the limit at zero a read returns 0
bytes leaving the `Take` state — inner reader state included —
untouched, whatever the inner reader would do; and the total yielded
over any read sequence never exceeds the initial limit (the total plus
the remaining limit is exactly the initial limit). -/
theorem take_spec {E σ : Type} (read : ReadFn E σ) (hwb : WellBehaved read) :
    (∀ (t : Take σ) (bufLen : Nat) (bs : List Byte) (t' : Take σ),
        Take.read read t bufLen = .ok (bs, t') →
        bs.length ≤ min bufLen t.limit ∧ t'.limit = t.limit - bs.length) ∧
    (∀ (t : Take σ) (bufLen : Nat), t.limit = 0 →
        Take.read read t bufLen = .ok ([], t)) ∧
    (∀ (t : Take σ) (bufLens : List Nat) (bss : List (List Byte)) (t' : Take σ),
        runReads (Take.read read) t bufLens = .ok (bss, t') →
        (bss.map List.length).sum + t'.limit = t.limit ∧
        (bss.map List.length).sum ≤ t.limit) := by
  refine ⟨fun t bufLen bs t' h => take_read_step read hwb t bufLen bs t' h,
    fun t bufLen h0 => ?_, fun t bufLens bss t' h => ?_⟩
  · unfold Take.read
    rw [if_pos h0]
  · have := take_runReads_total read hwb bufLens t bss t' h
    exact ⟨this, by omega⟩

/-- Closed instance of `take_spec`: a `Take` with exhausted limit over
the slice reader reports end-of-stream and leaves the wrapped slice
untouched. -/
theorem take_spec_witness :
    Take.read sliceReadFn ⟨[7, 8, 9], 0⟩ 5 = .ok ([], ⟨[7, 8, 9], 0⟩) :=
  (take_spec sliceReadFn sliceReadFn_wellBehaved).2.1 ⟨[7, 8, 9], 0⟩ 5 rfl

/-- A `BufReader`-wrapped read sequence returns exactly what the inner
reader would, with states transported through the wrapper. -/
theorem bufreader_runReads {E σ : Type} (read : ReadFn E σ) :
    ∀ (ns : List Nat) (s : σ),
      runReads (BufReader.read read) (BufReader.new s) ns =
        (runReads read s ns).map fun p => (p.1, BufReader.new p.2) := by
  intro ns
  induction ns with
  | nil => intro s; rfl
  | cons n ns ih =>
    intro s
    simp only [runReads, BufReader.read, BufReader.new]
    cases hr : read s n with
    | error e => rfl
    | ok p =>
      obtain ⟨bs, s'⟩ := p
      simp only
      rw [show (⟨s'⟩ : BufReader σ) = BufReader.new s' from rfl, ih s']
      cases runReads read s' ns with
      | error e => rfl
      | ok q => rfl

/-- The `write` field of the `BufWriter` writer is `BufWriter.write`. -/
theorem asWriter_write {E ω : Type} (wr : Writer E ω) (b : BufWriter ω) (bs : List Byte) :
    (BufWriter.asWriter wr).write b bs = BufWriter.write wr b bs := rfl

/-- The `flush` field of the `BufWriter` writer is `BufWriter.flush`. -/
theorem asWriter_flush {E ω : Type} (wr : Writer E ω) (b : BufWriter ω) :
    (BufWriter.asWriter wr).flush b = BufWriter.flush wr b := rfl

/-- A `BufWriter`-wrapped write/flush sequence returns exactly what
the inner writer would, with states transported through the
wrapper. -/
theorem bufwriter_runWrites {E ω : Type} (wr : Writer E ω) :
    ∀ (ops : List WriterOp) (w : ω),
      runWrites (BufWriter.asWriter wr) (BufWriter.new w) ops =
        (runWrites wr w ops).map fun p => (p.1, BufWriter.new p.2) := by
  intro ops
  induction ops with
  | nil => intro w; rfl
  | cons op ops ih =>
    intro w
    cases op with
    | writeOp bs =>
      simp only [runWrites, asWriter_write, BufWriter.write, BufWriter.new]
      cases hw : wr.write w bs with
      | error e => rfl
      | ok p =>
        obtain ⟨n, w'⟩ := p
        simp only
        rw [show (⟨w'⟩ : BufWriter ω) = BufWriter.new w' from rfl, ih w']
        cases runWrites wr w' ops with
        | error e => rfl
        | ok q => rfl
    | flushOp =>
      simp only [runWrites, asWriter_flush, BufWriter.flush, BufWriter.new]
      cases hf : wr.flush w with
      | error e => rfl
      | ok w' =>
        simp only
        exact ih w'

/-- C8: wrapping a stream in this `BufReader` (resp. `BufWriter`) is
behaviourally equivalent to the inner stream: every sequence of reads
(resp. writes and flushes) returns exactly the inner stream's results,
and `into_inner` returns the inner stream unchanged (inside `Ok` for
`BufWriter`). -/
theorem buffered_adapters_equiv {E σ ω : Type} (read : ReadFn E σ) (wr : Writer E ω) :
    (∀ (s : σ) (ns : List Nat),
        runReads (BufReader.read read) (BufReader.new s) ns =
          (runReads read s ns).map fun p => (p.1, BufReader.new p.2)) ∧
    (∀ s : σ, BufReader.into_inner (BufReader.new s) = s) ∧
    (∀ (w : ω) (ops : List WriterOp),
        runWrites (BufWriter.asWriter wr) (BufWriter.new w) ops =
          (runWrites wr w ops).map fun p => (p.1, BufWriter.new p.2)) ∧
    (∀ w : ω, BufWriter.into_inner (E := E) (BufWriter.new w) = .ok w) :=
  ⟨fun s ns => bufreader_runReads read ns s, fun _ => rfl,
    fun w ops => bufwriter_runWrites wr ops w, fun _ => rfl⟩

/-- When `copy`'s loop finishes with `Ok`, the chunks delivered to the
writer are exactly a read trace of the reader, and the count returned
is the accumulator plus their total length. -/
theorem copyFuel_ok_trace {E σ ω : Type} (read : ReadFn E σ) (writeAll : WriteAllFn E ω) :
    ∀ (fuel : Nat) (s : σ) (w : ω) (written total : Nat) (s' : σ) (w' : ω),
      copyFuel read writeAll fuel s w written = some (.ok (total, s', w')) →
      ∃ chunks, ReadTrace read s chunks s' ∧ writeFold writeAll w chunks = .ok w' ∧
        total = written + (chunks.map List.length).sum := by
  intro fuel
  induction fuel with
  | zero => intro s w written total s' w' h; simp [copyFuel] at h
  | succ fuel ih =>
    intro s w written total s' w' h
    simp only [copyFuel] at h
    cases hr : read s DEFAULT_BUF_SIZE with
    | error e => rw [hr] at h; simp at h
    | ok p =>
      obtain ⟨bs, s₁⟩ := p
      rw [hr] at h
      cases bs with
      | nil =>
        simp only [Option.some.injEq, Except.ok.injEq, Prod.mk.injEq] at h
        obtain ⟨h1, h2, h3⟩ := h
        subst h1; subst h2; subst h3
        exact ⟨[], ReadTrace.done _ _ hr, rfl, by simp⟩
      | cons b rest =>
        simp only at h
        cases hw : writeAll w (b :: rest) with
        | error e => rw [hw] at h; simp at h
        | ok w₁ =>
          rw [hw] at h
          simp only at h
          obtain ⟨chunks, htr, hfold, htot⟩ :=
            ih s₁ w₁ (written + (b :: rest).length) total s' w' h
          refine ⟨(b :: rest) :: chunks,
            ReadTrace.step s (b :: rest) s₁ chunks s' hr (by simp) htr, ?_, ?_⟩
          · simp only [writeFold, hw]
            exact hfold
          · simp only [List.map_cons, List.sum_cons] at htot ⊢
            omega

/-- C9: when `copy` returns `Ok`, the writer received, in order,
exactly the chunks the reader produced up to its 0-byte read, and the
returned count (starting the accumulator at 0) is exactly their total
length; a failing read makes `copy` return that error at once, and so
does a failing `write_all` of a non-empty chunk. -/
theorem copy_spec {E σ ω : Type} (read : ReadFn E σ) (writeAll : WriteAllFn E ω) :
    (∀ (fuel : Nat) (s : σ) (w : ω) (total : Nat) (s' : σ) (w' : ω),
        copyFuel read writeAll fuel s w 0 = some (.ok (total, s', w')) →
        ∃ chunks, ReadTrace read s chunks s' ∧ writeFold writeAll w chunks = .ok w' ∧
          total = (chunks.map List.length).sum) ∧
    (∀ (fuel : Nat) (s : σ) (w : ω) (written : Nat) (e : E),
        read s DEFAULT_BUF_SIZE = .error e →
        copyFuel read writeAll (fuel + 1) s w written = some (.error e)) ∧
    (∀ (fuel : Nat) (s : σ) (w : ω) (written : Nat) (bs : List Byte) (s₁ : σ) (e : E),
        read s DEFAULT_BUF_SIZE = .ok (bs, s₁) → bs ≠ [] →
        writeAll w bs = .error e →
        copyFuel read writeAll (fuel + 1) s w written = some (.error e)) := by
  refine ⟨fun fuel s w total s' w' h => ?_, fun fuel s w written e hr => ?_,
    fun fuel s w written bs s₁ e hr hne hw => ?_⟩
  · obtain ⟨chunks, htr, hfold, htot⟩ :=
      copyFuel_ok_trace read writeAll fuel s w 0 total s' w' h
    exact ⟨chunks, htr, hfold, by omega⟩
  · simp [copyFuel, hr]
  · cases bs with
    | nil => exact absurd rfl hne
    | cons b rest => simp [copyFuel, hr, hw]

/-- Closed instance of `copy_spec`: copying the two-byte slice
`[1, 2]` into the accumulating sink transfers exactly those bytes and
returns 2. -/
theorem copy_spec_witness :
    ∃ chunks, ReadTrace sliceReadFn [1, 2] chunks [] ∧
      writeFold accWriteAll [] chunks = .ok [1, 2] ∧
      2 = (chunks.map List.length).sum :=
  (copy_spec sliceReadFn accWriteAll).1 3 [1, 2] [] 2 [] [1, 2] rfl

end HttpIoSpec
